import Mathlib

/-!
# al-sudoku: the web shell (`web/index.js`) and the solver it drives

The file embeds the two click handlers of `web/index.js` as functions on the
list of the texts of the document's `input` elements (document order), with the
`Sudoku` class of the WebAssembly module as an explicit collaborator.
-/

namespace AlSudoku

/-! ## JavaScript values used by the shell -/

/-- A JavaScript Number as the shell sees it: `NaN`, or an integer value.
The sign of zero is not kept (`-0 !== 0` is false, so the shell cannot tell the
two apart), and an integer stands for itself (JavaScript keeps integers exactly
up to magnitude 2^53, far beyond a field that holds a digit). -/
inductive JSNum where
  | nan : JSNum
  | int : Int → JSNum
deriving DecidableEq, Repr

/-- The `StrWhiteSpaceChar` code points that `parseInt` skips at the start of its
argument (white space and line terminators). -/
def isStrWhiteSpaceChar (c : Char) : Bool :=
  let n := c.toNat
  n == 0x09 || n == 0x0A || n == 0x0B || n == 0x0C || n == 0x0D || n == 0x20 ||
  n == 0xA0 || n == 0x1680 || (0x2000 ≤ n && n ≤ 0x200A) || n == 0x2028 ||
  n == 0x2029 || n == 0x202F || n == 0x205F || n == 0x3000 || n == 0xFEFF

/-- The value of a character as a digit, letters counting from ten on. -/
def digitValue (c : Char) : Option Nat :=
  let n := c.toNat
  if 48 ≤ n ∧ n ≤ 57 then some (n - 48)
  else if 97 ≤ n ∧ n ≤ 122 then some (n - 87)
  else if 65 ≤ n ∧ n ≤ 90 then some (n - 55)
  else none

/-- The longest prefix of the characters that are digits of radix `R`, as values. -/
def takeDigits (R : Nat) : List Char → List Nat
  | [] => []
  | c :: cs =>
    match digitValue c with
    | some d => if d < R then d :: takeDigits R cs else []
    | none => []

/-- The integer a list of radix-`R` digit values denotes. -/
def radixValue (R : Nat) (ds : List Nat) : Nat :=
  ds.foldl (fun acc d => acc * R + d) 0

/-- `Number.parseInt(string)` with no radix argument: skip leading white space,
read an optional sign, an optional `0x`/`0X` prefix (radix 16, else radix 10),
then the longest run of digits; `NaN` when that run is empty. -/
def parseInt (s : String) : JSNum :=
  let s0 := s.toList.dropWhile isStrWhiteSpaceChar
  let signed : Int × List Char :=
    match s0 with
    | '-' :: t => (-1, t)
    | '+' :: t => (1, t)
    | _ => (1, s0)
  let based : Nat × List Char :=
    match signed.2 with
    | '0' :: 'x' :: t => (16, t)
    | '0' :: 'X' :: t => (16, t)
    | _ => (10, signed.2)
  let z := takeDigits based.1 based.2
  if z = [] then JSNum.nan else JSNum.int (signed.1 * (radixValue based.1 z : Int))

/-- `Number::toString` of an integer value: its decimal text, with a minus sign
when negative (the elements of a typed array of cell values are far below 10^21,
where JavaScript would switch to exponent notation). -/
def numberToString (n : Int) : String :=
  if n < 0 then "-" ++ Nat.repr n.natAbs else Nat.repr n.natAbs

/-- The text of an input field that holds the single digit `d` (`1 ≤ d ≤ 9`). -/
def digitText : Nat → String
  | 1 => "1"
  | 2 => "2"
  | 3 => "3"
  | 4 => "4"
  | 5 => "5"
  | 6 => "6"
  | 7 => "7"
  | 8 => "8"
  | 9 => "9"
  | _ => ""

/-! ## The document, the collaborator and the handlers -/

/-- What a handler can end with. -/
inductive JSError where
  | typeError : JSError
  | collaborator : String → JSError
deriving DecidableEq, Repr

/-- How a handler run ends: normally, or by an exception leaving the handler. -/
inductive Outcome where
  | finished : Outcome
  | threw : JSError → Outcome
deriving DecidableEq, Repr

/-- The observable steps of a handler: calls into the `Sudoku` class and
assignments `inputs[i].value = text`. -/
inductive Event where
  | construct : List JSNum → Event
  | solve : Event
  | getFields : Event
  | write : Nat → String → Event
deriving DecidableEq, Repr

/-- The `Sudoku` class imported from `./al-sudoku/al_sudoku.js`, as the handler
uses it: `new Sudoku(xs)`, `game.solve()`, `game.get_fields()`; each call may
throw. -/
structure SudokuModule (G : Type) where
  construct : List JSNum → Except String G
  solve : G → Except String G
  get_fields : G → Except String (List Int)

/-- A finished or aborted handler run: the texts of the input fields afterwards,
the steps taken, and how the run ended. -/
structure Run where
  fields : List String
  trace : List Event
  outcome : Outcome
deriving DecidableEq, Repr

/-- The loop `for (let i = 0; i < 81; i++) { inputs[i].value = text(i); }`, taken
up at index `i` with `k` iterations left (`writeLoop text 81 0` is the whole
loop). Indexing a missing field gives `undefined`, and assigning to its `value`
throws a `TypeError` that ends the handler. -/
def writeLoop (text : Nat → String) : Nat → Nat → List String → List Event → Run
  | 0, _, fs, tr => ⟨fs, tr, Outcome.finished⟩
  | k + 1, i, fs, tr =>
    if i < fs.length then
      writeLoop text k (i + 1) (fs.set i (text i)) (tr ++ [Event.write i (text i)])
    else ⟨fs, tr, Outcome.threw JSError.typeError⟩

/-- The value `result[i] !== 0 ? result[i] : ""` after conversion to the string
that the `value` setter stores; `result[i]` is `undefined` past the end. -/
def writeBackText (result : List Int) (i : Nat) : String :=
  match result[i]? with
  | some n => if n ≠ 0 then numberToString n else ""
  | none => "undefined"

/-- The sequence the solve handler builds from the input fields:
`Array.from(document.querySelectorAll("input")).map((x) => Number.parseInt(x.value))`. -/
def sudokuInput (fields : List String) : List JSNum :=
  fields.map parseInt

/-- The click handler of the first button (solve). -/
def solveClick {G : Type} (M : SudokuModule G) (fields : List String) : Run :=
  let input := sudokuInput fields
  match M.construct input with
  | Except.error e => ⟨fields, [Event.construct input], Outcome.threw (JSError.collaborator e)⟩
  | Except.ok game =>
    match M.solve game with
    | Except.error e =>
      ⟨fields, [Event.construct input, Event.solve], Outcome.threw (JSError.collaborator e)⟩
    | Except.ok game1 =>
      match M.get_fields game1 with
      | Except.error e =>
        ⟨fields, [Event.construct input, Event.solve, Event.getFields],
          Outcome.threw (JSError.collaborator e)⟩
      | Except.ok result =>
        writeLoop (writeBackText result) 81 0 fields
          [Event.construct input, Event.solve, Event.getFields]

/-- The click handler of the second button (clear). -/
def clearClick (fields : List String) : Run :=
  writeLoop (fun _ => "") 81 0 fields []

/-- A collaborator whose constructor accepts everything and whose `get_fields`
always answers `r`. -/
def constModule (r : List Int) : SudokuModule Unit where
  construct := fun _ => Except.ok ()
  solve := fun _ => Except.ok ()
  get_fields := fun _ => Except.ok r

/-- A collaborator whose constructor always throws. -/
def rejectModule : SudokuModule Unit where
  construct := fun _ => Except.error "InvalidInput"
  solve := fun _ => Except.ok ()
  get_fields := fun _ => Except.ok []

/-! ## The solving engine behind the `Sudoku` class

The engine itself (the source of the WebAssembly module) is not part of
`web/index.js`; what follows is written from the specification's sections 3, 4
and 6. -/

/-- Modelled from the spec: the row of a cell; the `Sudoku` engine is missing
from the sources, cells are numbered row-major, `index = row*9 + col`. -/
def rowOf (c : Nat) : Nat := c / 9

/-- Modelled from the spec: the column of a cell (`index = row*9 + col`); the
engine is missing from the sources. -/
def colOf (c : Nat) : Nat := c % 9

/-- Modelled from the spec: the box of a cell, `box = (row/3)*3 + col/3`; the
engine is missing from the sources. -/
def boxOf (c : Nat) : Nat := (rowOf c / 3) * 3 + colOf c / 3

/-- Modelled from the spec: a peer of a cell is any other cell sharing its row,
column, or box; the engine is missing from the sources. -/
def isPeer (c p : Nat) : Bool :=
  c != p && (rowOf c == rowOf p || colOf c == colOf p || boxOf c == boxOf p)

/-- Modelled from the spec: the peers of a cell among the 81 cells (20 per cell);
the engine is missing from the sources. -/
def peers (c : Nat) : List Nat :=
  (List.range 81).filter (isPeer c)

/-- Modelled from the spec: the Grid of section 3, missing from the sources: the
81 cell values (0 for an empty cell) and the candidate set of every cell, kept as
an ascending list. -/
structure Grid where
  vals : List Nat
  cands : List (List Nat)
deriving DecidableEq, Repr

/-- Modelled from the spec: the value of a cell of the missing Grid, 0 when empty. -/
def Grid.val (g : Grid) (c : Nat) : Nat := g.vals.getD c 0

/-- Modelled from the spec: the candidate set of a cell of the missing Grid. -/
def Grid.cand (g : Grid) (c : Nat) : List Nat := g.cands.getD c []

/-- Modelled from the spec: the error taxonomy of section 7 (the engine is missing
from the sources): `InvalidInput` at construction, `Contradiction` inside the
solver. -/
inductive GridError where
  | invalidInput : GridError
  | contradiction : GridError
deriving DecidableEq, Repr

/-- Modelled from the spec: how the missing constructor reads one input value,
"0 or blank denotes empty, 1–9 denotes a given"; blank is the `NaN` of a blank
field, and a value outside `{0..9}` has no reading. -/
def cellOfInput : JSNum → Option Nat
  | JSNum.nan => some 0
  | JSNum.int n => if 0 ≤ n ∧ n ≤ 9 then some n.toNat else none

/-- Modelled from the spec: the malformed-puzzle test of the missing constructor,
"two given cells in the same row, column, or box already share a value". -/
def hasConflict (vs : List Nat) : Bool :=
  (List.range 81).any fun c =>
    vs.getD c 0 != 0 && (peers c).any fun p => vs.getD p 0 == vs.getD c 0

/-- Modelled from the spec: invariant I2 at construction of the missing Grid, the
candidate set of an empty cell is `{1..9}` minus the values of its filled peers
(a filled cell has no candidate set). -/
def initialCand (vs : List Nat) (c : Nat) : List Nat :=
  if vs.getD c 0 != 0 then []
  else (List.range' 1 9).filter fun v => (peers c).all fun p => vs.getD p 0 != v

/-- Modelled from the spec: `construct(values)` of section 4.1, missing from the
sources: `InvalidInput` if the length is not 81, if a value is outside `{0..9}`,
or if two givens in one row, column or box share a value. -/
def Grid.construct (values : List JSNum) : Except GridError Grid :=
  if values.length ≠ 81 then Except.error GridError.invalidInput
  else if values.any (fun x => (cellOfInput x).isNone) then
    Except.error GridError.invalidInput
  else
    let vs := values.map fun x => (cellOfInput x).getD 0
    if hasConflict vs then Except.error GridError.invalidInput
    else Except.ok ⟨vs, (List.range 81).map (initialCand vs)⟩

/-- Modelled from the spec: the grid after `assign(cell, value)` of the missing
Grid has set the value and removed it from the candidate sets of all peers. -/
def Grid.assigned (g : Grid) (c v : Nat) : Grid :=
  ⟨g.vals.set c v,
    (List.range 81).map fun p =>
      if isPeer c p then (g.cand p).filter (fun w => w != v) else g.cand p⟩

/-- Modelled from the spec: `assign(cell, value)` of section 4.1, missing from the
sources: fails with `Contradiction` if the cell holds a different value or the
value is not a candidate of the cell; otherwise returns the new grid and the
empty peers whose candidate set became empty or a singleton. -/
def Grid.assign (g : Grid) (c v : Nat) : Except GridError (Grid × List Nat) :=
  if g.val c ≠ 0 then
    if g.val c = v then Except.ok (g, []) else Except.error GridError.contradiction
  else if v ∈ g.cand c then
    Except.ok (g.assigned c v,
      (peers c).filter fun p =>
        g.val p == 0 && v ∈ g.cand p && decide (((g.assigned c v).cand p).length ≤ 1))
  else Except.error GridError.contradiction

/-- Modelled from the spec: `is_complete()` of the missing Grid, true iff all 81
cells are assigned. -/
def Grid.is_complete (g : Grid) : Bool :=
  (List.range 81).all fun c => g.val c != 0

/-- Modelled from the spec: one scan of the given cells in constraint propagation
(section 4.2, step 1; the solver is missing from the sources): an empty cell
whose candidate set is a single value is assigned it, an empty cell with no
candidate is a contradiction. The flag tells whether a cell was assigned. -/
def scanCells : List Nat → Grid → Bool → Except GridError (Grid × Bool)
  | [], g, changed => Except.ok (g, changed)
  | c :: cs, g, changed =>
    if g.val c ≠ 0 then scanCells cs g changed
    else
      match g.cand c with
      | [] => Except.error GridError.contradiction
      | [v] =>
        match g.assign c v with
        | Except.error e => Except.error e
        | Except.ok (g1, _) => scanCells cs g1 true
      | _ :: _ :: _ => scanCells cs g changed

/-- Modelled from the spec: constraint propagation of the missing solver, scans
repeated to a fixed point; the first argument bounds the number of scans. -/
def propagate : Nat → Grid → Except GridError Grid
  | 0, g => Except.ok g
  | n + 1, g =>
    match scanCells (List.range 81) g false with
    | Except.error e => Except.error e
    | Except.ok (g1, changed) => if changed then propagate n g1 else Except.ok g1

/-- Modelled from the spec: the cell choice of the missing solver's search, "the
empty cell with the smallest candidate-set size greater than one", ties broken
by lowest `(row, col)`. -/
def pickCell (g : Grid) : Option Nat :=
  (List.range 81).foldl
    (fun best c =>
      if g.val c = 0 ∧ 1 < (g.cand c).length then
        match best with
        | none => some c
        | some b => if (g.cand c).length < (g.cand b).length then some c else some b
      else best)
    none

/-- Modelled from the spec: propagation followed by backtracking search (section
4.2, steps 1 to 3; the solver is missing from the sources). The candidates of
the chosen cell are tried in ascending order, each on the snapshot `g1`; the
result is the solved grid, or `none` for `Unsatisfiable`. The first argument
bounds the depth of the recursion. -/
def search : Nat → Grid → Option Grid
  | 0, _ => none
  | n + 1, g =>
    match propagate 82 g with
    | Except.error _ => none
    | Except.ok g1 =>
      if g1.is_complete then some g1
      else
        match pickCell g1 with
        | none => none
        | some c =>
          (g1.cand c).findSome? fun v =>
            match g1.assign c v with
            | Except.error _ => none
            | Except.ok (g2, _) => search n g2

/-- Modelled from the spec: the terminal states of the missing solver's state
machine, with `ready` for a grid not yet solved. -/
inductive Status where
  | ready : Status
  | solved : Status
  | unsatisfiable : Status
deriving DecidableEq, Repr

/-- Modelled from the spec: an instance of the missing `Sudoku` class, a grid and
the classification of the last solve. -/
structure Sudoku where
  grid : Grid
  status : Status
deriving DecidableEq, Repr

/-- Modelled from the spec: the solve operation of the missing class (section 6):
`Solved` returns the filled grid, `Unsatisfiable` the original givens with the
empty cells left as 0. Recursion depth is bounded by the number of empty cells
(at most 81). -/
def Sudoku.solve (s : Sudoku) : Sudoku :=
  match search 82 s.grid with
  | some g => ⟨g, Status.solved⟩
  | none => ⟨s.grid, Status.unsatisfiable⟩

/-- Modelled from the spec: the grid read back as an ordered sequence of 81
integers, 0 for an unassigned cell (the missing `get_fields`). -/
def Sudoku.get_fields (s : Sudoku) : List Int :=
  s.grid.vals.map Int.ofNat

/-- Modelled from the spec: the missing `Sudoku` class as the collaborator of the
shell; a failed construction throws `InvalidInput`. -/
def specSudoku : SudokuModule Sudoku where
  construct := fun values =>
    match Grid.construct values with
    | Except.ok g => Except.ok ⟨g, Status.ready⟩
    | Except.error _ => Except.error "InvalidInput"
  solve := fun s => Except.ok s.solve
  get_fields := fun s => Except.ok s.get_fields

/-- The cells of row `r`, left to right. -/
def rowCells (r : Nat) : List Nat :=
  (List.range 9).map fun k => r * 9 + k

/-- The cells of column `c`, top to bottom. -/
def colCells (c : Nat) : List Nat :=
  (List.range 9).map fun k => k * 9 + c

/-- The cells of box `b` (`box = (row/3)*3 + col/3`), row-major. -/
def boxCells (b : Nat) : List Nat :=
  (List.range 9).map fun k => ((b / 3) * 3 + k / 3) * 9 + ((b % 3) * 3 + k % 3)

/-- The cells listed contain each of 1..9 exactly once in the sequence `out`. -/
def unitOk (out : List Int) (cells : List Nat) : Prop :=
  ∀ d : Int, 1 ≤ d → d ≤ 9 → (cells.map fun c => out.getD c 0).count d = 1

/-- A sequence of 81 values in which every row, every column and every 3×3 box
contains each of 1..9 exactly once. -/
def validSolution (out : List Int) : Prop :=
  out.length = 81 ∧
    ∀ u : Nat, u < 9 →
      unitOk out (rowCells u) ∧ unitOk out (colCells u) ∧ unitOk out (boxCells u)

/-- The part of the Grid invariants of section 3 that solving relies on: 81
cells with values in 0..9, I1 (no peer of a filled cell holds its value), and the
soundness half of I2 (a candidate of an empty cell is in 1..9 and held by no
peer). -/
structure Grid.Inv (g : Grid) : Prop where
  len : g.vals.length = 81
  range : ∀ c, g.val c ≤ 9
  distinct : ∀ c p, isPeer c p = true → g.val c ≠ 0 → g.val p ≠ g.val c
  sound : ∀ c v, g.val c = 0 → v ∈ g.cand c →
    1 ≤ v ∧ v ≤ 9 ∧ ∀ p, isPeer c p = true → g.val p ≠ v

/-- Every filled cell of `g` holds the same value in `h`. -/
def Grid.Extends (g h : Grid) : Prop :=
  ∀ c, g.val c ≠ 0 → h.val c = g.val c

/-- The number of empty cells of a grid. -/
def Grid.emptyCount (g : Grid) : Nat :=
  (List.range 81).countP fun c => g.val c == 0

/-- A completed grid, used as a concrete instance. -/
def solvedVals : List Nat :=
  [5, 3, 4, 6, 7, 8, 9, 1, 2,  6, 7, 2, 1, 9, 5, 3, 4, 8,  1, 9, 8, 3, 4, 2, 5, 6, 7,
   8, 5, 9, 7, 6, 1, 4, 2, 3,  4, 2, 6, 8, 5, 3, 7, 9, 1,  7, 1, 3, 9, 2, 4, 8, 5, 6,
   9, 6, 1, 5, 3, 7, 2, 8, 4,  2, 8, 7, 4, 1, 9, 6, 3, 5,  3, 4, 5, 2, 8, 6, 1, 7, 9]

/-- The example grid with its first cell blank, as the shell serializes it. -/
def oneBlank : List JSNum :=
  JSNum.nan :: (solvedVals.tail.map fun n => JSNum.int n)

/-- The Grid constructed from `oneBlank`: the blank cell has the single candidate 5. -/
def oneBlankGrid : Grid :=
  ⟨0 :: solvedVals.tail, [5] :: List.replicate 80 []⟩

example : parseInt "" = JSNum.nan := by decide
example : parseInt "5" = JSNum.int 5 := by decide
example : parseInt " 07x" = JSNum.int 7 := by decide
example : parseInt "-0x1F" = JSNum.int (-31) := by decide
example : numberToString 5 = "5" := by decide
example : numberToString (-12) = "-12" := by decide
example : (clearClick ["1", "2"]).outcome = Outcome.threw JSError.typeError := by decide

/-! ## Lemmas on the field-writing loop -/

theorem writeLoop_length (text : Nat → String) (k i : Nat) (fs : List String)
    (tr : List Event) : (writeLoop text k i fs tr).fields.length = fs.length := by
  induction k generalizing i fs tr with
  | zero => simp [writeLoop]
  | succ k ih =>
    unfold writeLoop
    split
    · rw [ih]; simp
    · rfl

theorem writeLoop_getElem? (text : Nat → String) (k i : Nat) (fs : List String)
    (tr : List Event) (j : Nat) :
    (writeLoop text k i fs tr).fields[j]? =
      if i ≤ j ∧ j < i + k ∧ j < fs.length then some (text j) else fs[j]? := by
  induction k generalizing i fs tr with
  | zero =>
    have : ¬ (i ≤ j ∧ j < i + 0 ∧ j < fs.length) := by omega
    rw [if_neg this]
    simp [writeLoop]
  | succ k ih =>
    unfold writeLoop
    split
    · rename_i hi
      rw [ih]
      simp only [List.length_set]
      by_cases hji : j = i
      · subst hji
        have h1 : ¬ (j + 1 ≤ j ∧ j < j + 1 + k ∧ j < fs.length) := by omega
        have h2 : j ≤ j ∧ j < j + (k + 1) ∧ j < fs.length := by omega
        rw [if_neg h1, if_pos h2]
        simp [List.getElem?_set, hi]
      · by_cases hc : i ≤ j ∧ j < i + (k + 1) ∧ j < fs.length
        · have h1 : i + 1 ≤ j ∧ j < i + 1 + k ∧ j < fs.length := by omega
          rw [if_pos h1, if_pos hc]
        · have h1 : ¬ (i + 1 ≤ j ∧ j < i + 1 + k ∧ j < fs.length) := by omega
          rw [if_neg h1, if_neg hc]
          rw [List.getElem?_set_ne (Ne.symm hji)]
    · rename_i hi
      have : ¬ (i ≤ j ∧ j < i + (k + 1) ∧ j < fs.length) := by omega
      simp [this]

theorem writeLoop_outcome (text : Nat → String) (k i : Nat) (fs : List String)
    (tr : List Event) (h : i + k ≤ fs.length) :
    (writeLoop text k i fs tr).outcome = Outcome.finished := by
  induction k generalizing i fs tr with
  | zero => simp [writeLoop]
  | succ k ih =>
    unfold writeLoop
    have hi : i < fs.length := by omega
    rw [if_pos hi]
    apply ih
    simp only [List.length_set]
    omega

theorem writeLoop_outcome_cases (text : Nat → String) (k i : Nat) (fs : List String)
    (tr : List Event) :
    (writeLoop text k i fs tr).outcome = Outcome.finished ∨
      ((writeLoop text k i fs tr).outcome = Outcome.threw JSError.typeError ∧
        fs.length < i + k) := by
  induction k generalizing i fs tr with
  | zero => simp [writeLoop]
  | succ k ih =>
    unfold writeLoop
    split
    · rcases ih (i + 1) (fs.set i (text i)) (tr ++ [Event.write i (text i)]) with h | ⟨h, hl⟩
      · exact Or.inl h
      · refine Or.inr ⟨h, ?_⟩
        simp only [List.length_set] at hl
        omega
    · right
      refine ⟨rfl, ?_⟩
      omega

theorem writeLoop_trace (text : Nat → String) (k i : Nat) (fs : List String)
    (tr : List Event) :
    ∀ e ∈ (writeLoop text k i fs tr).trace,
      e ∈ tr ∨ ∃ j, i ≤ j ∧ j < i + k ∧ j < fs.length ∧ e = Event.write j (text j) := by
  induction k generalizing i fs tr with
  | zero =>
    intro e he
    left
    simpa [writeLoop] using he
  | succ k ih =>
    intro e he
    unfold writeLoop at he
    split at he
    · rename_i hi
      rcases ih (i + 1) (fs.set i (text i)) (tr ++ [Event.write i (text i)]) e he with h | h
      · rcases List.mem_append.mp h with h | h
        · exact Or.inl h
        · right
          refine ⟨i, le_refl i, by omega, hi, ?_⟩
          simpa using h
      · obtain ⟨j, h1, h2, h3, h4⟩ := h
        right
        simp only [List.length_set] at h3
        exact ⟨j, by omega, by omega, h3, h4⟩
    · exact Or.inl he

theorem writeLoop_trace_head (text : Nat → String) (k i : Nat) (fs : List String)
    (tr : List Event) (e : Event) (h : tr.head? = some e) :
    (writeLoop text k i fs tr).trace.head? = some e := by
  induction k generalizing i fs tr with
  | zero => simpa [writeLoop] using h
  | succ k ih =>
    unfold writeLoop
    split
    · apply ih
      cases tr with
      | nil => simp at h
      | cons a t => simpa using h
    · exact h

theorem writeLoop_trace_full (text : Nat → String) (k i : Nat) (fs : List String)
    (tr : List Event) (h : i + k ≤ fs.length) :
    (writeLoop text k i fs tr).trace =
      tr ++ (List.range' i k).map (fun j => Event.write j (text j)) := by
  induction k generalizing i fs tr with
  | zero => simp [writeLoop]
  | succ k ih =>
    unfold writeLoop
    have hi : i < fs.length := by omega
    rw [if_pos hi, ih]
    · simp [List.range'_succ]
    · simp only [List.length_set]
      omega

theorem parseInt_digitText (d : Nat) (h1 : 1 ≤ d) (h9 : d ≤ 9) :
    parseInt (digitText d) = JSNum.int d := by
  interval_cases d <;> decide

theorem parseInt_empty : parseInt "" = JSNum.nan := by decide

theorem numberToString_digit (d : Nat) (h1 : 1 ≤ d) (h9 : d ≤ 9) :
    numberToString (d : Int) = digitText d := by
  interval_cases d <;> decide

theorem digitText_ne_empty (d : Nat) (h1 : 1 ≤ d) (h9 : d ≤ 9) : digitText d ≠ "" := by
  interval_cases d <;> decide

theorem sudokuInput_getElem? (fields : List String) (i : Nat) :
    (sudokuInput fields)[i]? = (fields[i]?).map parseInt := by
  simp [sudokuInput]

theorem solveClick_trace_head {G : Type} (M : SudokuModule G) (fields : List String) :
    (solveClick M fields).trace.head? = some (Event.construct (sudokuInput fields)) := by
  unfold solveClick
  simp only []
  split
  · rfl
  · split
    · rfl
    · split
      · rfl
      · rename_i result _
        have := writeLoop_trace_head (writeBackText result) 81 0 fields
          [Event.construct (sudokuInput fields), Event.solve, Event.getFields]
        simpa using this

/-! ## Properties of the two click handlers -/

/-- C1: when `get_fields()` has returned the 81 integers `result`, every input
field `i < 81` of the document holds, after the solve handler, the decimal text of
`result[i]` when that is not 0 and the empty string when it is 0; with at least
81 input fields the handler finishes normally. -/
theorem solveClick_writeBack {G : Type} (M : SudokuModule G) (fields : List String)
    (g g1 : G) (result : List Int)
    (hc : M.construct (sudokuInput fields) = Except.ok g)
    (hs : M.solve g = Except.ok g1)
    (hg : M.get_fields g1 = Except.ok result)
    (hlen : result.length = 81) (i : Nat) (hi : i < 81) (hf : i < fields.length) :
    (solveClick M fields).fields[i]? =
        some (if result.getD i 0 ≠ 0 then numberToString (result.getD i 0) else "") ∧
      (81 ≤ fields.length → (solveClick M fields).outcome = Outcome.finished) := by
  have hrun : solveClick M fields = writeLoop (writeBackText result) 81 0 fields
      [Event.construct (sudokuInput fields), Event.solve, Event.getFields] := by
    simp [solveClick, hc, hs, hg]
  rw [hrun]
  constructor
  · rw [writeLoop_getElem?]
    have hcond : 0 ≤ i ∧ i < 0 + 81 ∧ i < fields.length := by omega
    rw [if_pos hcond]
    have hri : i < result.length := by omega
    simp [writeBackText, List.getD, List.getElem?_eq_getElem hri]
  · intro h81
    exact writeLoop_outcome _ _ _ _ _ (by omega)

/-- Witness of C1 on a board of 81 blank fields and a result of 81 fives. -/
theorem solveClick_writeBack_witness :
    (solveClick (constModule (List.replicate 81 5)) (List.replicate 81 "")).fields[7]? =
        some (if (List.replicate 81 (5 : Int)).getD 7 0 ≠ 0
          then numberToString ((List.replicate 81 (5 : Int)).getD 7 0) else "") ∧
      (81 ≤ (List.replicate 81 "").length →
        (solveClick (constModule (List.replicate 81 5)) (List.replicate 81 "")).outcome =
          Outcome.finished) :=
  solveClick_writeBack (constModule (List.replicate 81 5)) (List.replicate 81 "") () ()
    (List.replicate 81 5) rfl rfl rfl (by simp) 7 (by decide) (by simp)

/-- C3: for every document, the first step of the solve handler is the call
`new Sudoku(seq)` where `seq` has one element per input field, element `i` being
`Number.parseInt` of the text of field `i`, and a field whose text is the single
digit `d` (1..9) gives the integer `d` at its index. -/
theorem solveClick_input_order {G : Type} (M : SudokuModule G) (fields : List String) :
    (solveClick M fields).trace.head? = some (Event.construct (sudokuInput fields)) ∧
      (sudokuInput fields).length = fields.length ∧
      (∀ i : Nat, (sudokuInput fields)[i]? = (fields[i]?).map parseInt) ∧
      ∀ (i d : Nat), 1 ≤ d → d ≤ 9 → fields[i]? = some (digitText d) →
        (sudokuInput fields)[i]? = some (JSNum.int d) := by
  refine ⟨solveClick_trace_head M fields, by simp [sudokuInput],
    sudokuInput_getElem? fields, ?_⟩
  intro i d h1 h9 hf
  rw [sudokuInput_getElem?, hf]
  simp [parseInt_digitText d h1 h9]

/-- Witness of C3: a three-field document with the digit 7 in field 1. -/
theorem solveClick_input_order_witness :
    (sudokuInput ["", "7", "3"])[1]? = some (JSNum.int (7 : Nat)) :=
  (solveClick_input_order rejectModule ["", "7", "3"]).2.2.2 1 7 (by decide) (by decide)
    (by decide)

/-- C4: when the constructor throws on the serialized sequence, the solve handler
stops there: its only step is the constructor call, so it calls neither `solve`
nor `get_fields`, writes no field, and every field keeps its text. -/
theorem solveClick_invalidInput {G : Type} (M : SudokuModule G) (fields : List String)
    (e : String) (h : M.construct (sudokuInput fields) = Except.error e) :
    (solveClick M fields).fields = fields ∧
      (solveClick M fields).trace = [Event.construct (sudokuInput fields)] ∧
      Event.solve ∉ (solveClick M fields).trace ∧
      Event.getFields ∉ (solveClick M fields).trace ∧
      (∀ i t, Event.write i t ∉ (solveClick M fields).trace) ∧
      (solveClick M fields).outcome = Outcome.threw (JSError.collaborator e) := by
  have hrun : solveClick M fields =
      ⟨fields, [Event.construct (sudokuInput fields)],
        Outcome.threw (JSError.collaborator e)⟩ := by
    simp [solveClick, h]
  rw [hrun]
  simp

/-- Witness of C4: a rejecting constructor on a two-field document. -/
theorem solveClick_invalidInput_witness :
    (solveClick rejectModule ["9", "9"]).fields = ["9", "9"] ∧
      (solveClick rejectModule ["9", "9"]).trace = [Event.construct (sudokuInput ["9", "9"])] ∧
      Event.solve ∉ (solveClick rejectModule ["9", "9"]).trace ∧
      Event.getFields ∉ (solveClick rejectModule ["9", "9"]).trace ∧
      (∀ i t, Event.write i t ∉ (solveClick rejectModule ["9", "9"]).trace) ∧
      (solveClick rejectModule ["9", "9"]).outcome =
        Outcome.threw (JSError.collaborator "InvalidInput") :=
  solveClick_invalidInput rejectModule ["9", "9"] "InvalidInput" rfl

/-- C5: on a board whose fields (81 of them, or any other number) are each blank
or a single digit 1..9, if
`get_fields()` returns the digit at every given position and 0 at every blank
position, the solve handler leaves the text of every field as it was. -/
theorem solveClick_unsatisfiable_unchanged {G : Type} (M : SudokuModule G)
    (fields : List String) (g g1 : G) (result : List Int)
    (hboard : ∀ s ∈ fields, s = "" ∨ ∃ d, 1 ≤ d ∧ d ≤ 9 ∧ s = digitText d)
    (hc : M.construct (sudokuInput fields) = Except.ok g)
    (hs : M.solve g = Except.ok g1)
    (hg : M.get_fields g1 = Except.ok result)
    (hblank : ∀ i : Nat, fields[i]? = some "" → result[i]? = some 0)
    (hgiven : ∀ (i d : Nat), 1 ≤ d → d ≤ 9 → fields[i]? = some (digitText d) →
      result[i]? = some (d : Int)) :
    (solveClick M fields).fields = fields := by
  have hrun : solveClick M fields = writeLoop (writeBackText result) 81 0 fields
      [Event.construct (sudokuInput fields), Event.solve, Event.getFields] := by
    simp [solveClick, hc, hs, hg]
  rw [hrun]
  apply List.ext_getElem?
  intro i
  rw [writeLoop_getElem?]
  split
  · rename_i hcond
    have hi : i < fields.length := hcond.2.2
    have hfi : fields[i]? = some fields[i] := List.getElem?_eq_getElem hi
    rw [hfi]
    rcases hboard fields[i] (List.getElem_mem hi) with he | ⟨d, h1, h9, hd⟩
    · rw [he] at hfi
      have := hblank i hfi
      simp [writeBackText, this, he]
    · rw [hd] at hfi
      have := hgiven i d h1 h9 hfi
      have hne : (d : Int) ≠ 0 := by omega
      simp [writeBackText, this, hd, hne, numberToString_digit d h1 h9]
  · rfl

/-- Witness of C5: the board with a 5 in the first of its 81 fields. -/
theorem solveClick_unsatisfiable_unchanged_witness :
    (solveClick (constModule (5 :: List.replicate 80 0)) ("5" :: List.replicate 80 "")).fields =
      "5" :: List.replicate 80 "" :=
  solveClick_unsatisfiable_unchanged (constModule (5 :: List.replicate 80 0))
    ("5" :: List.replicate 80 "") () () (5 :: List.replicate 80 0)
    (by
      intro s hs
      rcases List.mem_cons.mp hs with h | h
      · exact Or.inr ⟨5, by decide, by decide, h⟩
      · exact Or.inl (List.eq_of_mem_replicate h))
    rfl rfl rfl
    (by
      intro i hi
      cases i with
      | zero => simp at hi
      | succ j =>
        simp only [List.getElem?_cons_succ] at hi ⊢
        rw [List.getElem?_replicate] at hi ⊢
        split at hi
        · rename_i hj; simp [hj]
        · simp at hi)
    (by
      intro i d h1 h9 hi
      cases i with
      | zero =>
        simp only [List.getElem?_cons_zero, Option.some.injEq] at hi ⊢
        interval_cases d <;> first | rfl | (exact absurd hi (by decide))
      | succ j =>
        simp only [List.getElem?_cons_succ] at hi
        rw [List.getElem?_replicate] at hi
        split at hi
        · simp only [Option.some.injEq] at hi
          exact absurd hi.symm (digitText_ne_empty d h1 h9)
        · simp at hi)

/-- C8: with at least 81 input fields, the clear handler finishes, every one of
the first 81 fields then holds the empty string, and its steps are exactly the 81
assignments `inputs[i].value = ""`: no constructor call and no solver call. -/
theorem clearClick_clears (fields : List String) (h : 81 ≤ fields.length) :
    (∀ i : Nat, i < 81 → (clearClick fields).fields[i]? = some "") ∧
      (clearClick fields).trace = (List.range 81).map (fun i => Event.write i "") ∧
      (∀ e ∈ (clearClick fields).trace,
        e ≠ Event.solve ∧ e ≠ Event.getFields ∧ ∀ xs, e ≠ Event.construct xs) ∧
      (clearClick fields).outcome = Outcome.finished := by
  have htr : (clearClick fields).trace = (List.range 81).map (fun i => Event.write i "") := by
    unfold clearClick
    rw [writeLoop_trace_full _ _ _ _ _ (by omega), List.range_eq_range']
    simp
  refine ⟨?_, htr, ?_, ?_⟩
  · intro i hi
    unfold clearClick
    rw [writeLoop_getElem?]
    have hcond : 0 ≤ i ∧ i < 0 + 81 ∧ i < fields.length := by omega
    rw [if_pos hcond]
  · intro e he
    rw [htr] at he
    obtain ⟨i, _, rfl⟩ := List.mem_map.mp he
    simp
  · exact writeLoop_outcome _ _ _ _ _ (by omega)

/-- Witness of C8: a board of 81 fields that all hold "4". -/
theorem clearClick_clears_witness :
    (∀ i : Nat, i < 81 → (clearClick (List.replicate 81 "4")).fields[i]? = some "") ∧
      (clearClick (List.replicate 81 "4")).trace =
        (List.range 81).map (fun i => Event.write i "") ∧
      (∀ e ∈ (clearClick (List.replicate 81 "4")).trace,
        e ≠ Event.solve ∧ e ≠ Event.getFields ∧ ∀ xs, e ≠ Event.construct xs) ∧
      (clearClick (List.replicate 81 "4")).outcome = Outcome.finished :=
  clearClick_clears (List.replicate 81 "4") (by simp)

theorem parseInt_numberToString_digit (n : Int) (h1 : 1 ≤ n) (h9 : n ≤ 9) :
    parseInt (numberToString n) = JSNum.int n := by
  interval_cases n <;> decide

/-- C9: once the solve handler has written a result `r` of 81 integers in 0..9 to
a document with at least 81 input fields, reading the fields back with
`Number.parseInt` gives `r[i]` at every index with `r[i]` in 1..9; when `r` is
all in 1..9 the first 81 elements read back are `r`, and on a board of exactly 81
fields a second click on solve hands the constructor exactly `r`. -/
theorem solveClick_write_then_read {G : Type} (M : SudokuModule G) (fields : List String)
    (g g1 : G) (r : List Int)
    (hc : M.construct (sudokuInput fields) = Except.ok g)
    (hs : M.solve g = Except.ok g1)
    (hg : M.get_fields g1 = Except.ok r)
    (hr : r.length = 81) (hrange : ∀ x ∈ r, 0 ≤ x ∧ x ≤ 9) (hf : 81 ≤ fields.length) :
    (∀ (i : Nat) (n : Int), r[i]? = some n → 1 ≤ n → n ≤ 9 →
        (sudokuInput (solveClick M fields).fields)[i]? = some (JSNum.int n)) ∧
      ((∀ x ∈ r, 1 ≤ x) →
        (sudokuInput (solveClick M fields).fields).take 81 = r.map JSNum.int ∧
        (fields.length = 81 →
          sudokuInput (solveClick M fields).fields = r.map JSNum.int ∧
          (solveClick M (solveClick M fields).fields).trace.head? =
            some (Event.construct (r.map JSNum.int)))) := by
  have hrun : solveClick M fields = writeLoop (writeBackText r) 81 0 fields
      [Event.construct (sudokuInput fields), Event.solve, Event.getFields] := by
    simp [solveClick, hc, hs, hg]
  have hread : ∀ (i : Nat) (n : Int), r[i]? = some n → 1 ≤ n → n ≤ 9 →
      (sudokuInput (solveClick M fields).fields)[i]? = some (JSNum.int n) := by
    intro i n hin h1 h9
    have hi : i < r.length := by
      by_contra hcon
      rw [List.getElem?_eq_none (by omega)] at hin
      simp at hin
    rw [sudokuInput_getElem?, hrun, writeLoop_getElem?]
    have hcond : 0 ≤ i ∧ i < 0 + 81 ∧ i < fields.length := by omega
    have hne : n ≠ 0 := by omega
    rw [if_pos hcond]
    simp [writeBackText, hin, hne, parseInt_numberToString_digit n h1 h9]
  refine ⟨hread, ?_⟩
  intro hpos
  have htake : (sudokuInput (solveClick M fields).fields).take 81 = r.map JSNum.int := by
    apply List.ext_getElem?
    intro i
    by_cases hi : i < 81
    · rw [List.getElem?_take_of_lt hi]
      have hri : i < r.length := by omega
      have hin : r[i]? = some r[i] := List.getElem?_eq_getElem hri
      have hmem : r[i] ∈ r := List.getElem_mem hri
      rw [hread i r[i] hin (hpos _ hmem) (hrange _ hmem).2]
      simp [hin]
    · rw [List.getElem?_take_eq_none (by omega), List.getElem?_eq_none]
      simp only [List.length_map]
      omega
  refine ⟨htake, ?_⟩
  intro h81
  have hfull : sudokuInput (solveClick M fields).fields = r.map JSNum.int := by
    rw [← htake]
    symm
    apply List.take_of_length_le
    simp [sudokuInput, hrun, writeLoop_length, h81]
  refine ⟨hfull, ?_⟩
  rw [solveClick_trace_head, hfull]

/-- Witness of C9: 81 blank fields and a result of 81 fives. -/
theorem solveClick_write_then_read_witness :
    sudokuInput (solveClick (constModule (List.replicate 81 5))
        (List.replicate 81 "")).fields = (List.replicate 81 (5 : Int)).map JSNum.int :=
  ((solveClick_write_then_read (constModule (List.replicate 81 5)) (List.replicate 81 "")
    () () (List.replicate 81 5) rfl rfl rfl (by simp)
    (by intro x hx; rw [List.eq_of_mem_replicate hx]; decide) (by simp)).2
    (by intro x hx; rw [List.eq_of_mem_replicate hx]; decide)).2 (by simp) |>.1

/-- C10: with at least 81 input fields, whatever result `get_fields()` returns,
the write-back loop of the solve handler and the loop of the clear handler assign
only to fields 0..80, never end in the `TypeError` of a missing field, and leave
the text of every field at index 81 or more as it was. -/
theorem loops_in_bounds {G : Type} (M : SudokuModule G) (fields : List String)
    (h : 81 ≤ fields.length) :
    ((∀ (i : Nat) (t : String), Event.write i t ∈ (solveClick M fields).trace → i < 81) ∧
      (solveClick M fields).outcome ≠ Outcome.threw JSError.typeError ∧
      (∀ j : Nat, 81 ≤ j → (solveClick M fields).fields[j]? = fields[j]?)) ∧
    ((∀ (i : Nat) (t : String), Event.write i t ∈ (clearClick fields).trace → i < 81) ∧
      (clearClick fields).outcome ≠ Outcome.threw JSError.typeError ∧
      (∀ j : Nat, 81 ≤ j → (clearClick fields).fields[j]? = fields[j]?)) := by
  have key : ∀ (text : Nat → String) (tr : List Event),
      (∀ (i : Nat) (t : String), Event.write i t ∉ tr) →
      (∀ (i : Nat) (t : String), Event.write i t ∈ (writeLoop text 81 0 fields tr).trace →
          i < 81) ∧
        (writeLoop text 81 0 fields tr).outcome ≠ Outcome.threw JSError.typeError ∧
        (∀ j : Nat, 81 ≤ j → (writeLoop text 81 0 fields tr).fields[j]? = fields[j]?) := by
    intro text tr htr
    refine ⟨?_, ?_, ?_⟩
    · intro i t hmem
      rcases writeLoop_trace text 81 0 fields tr _ hmem with h1 | ⟨j, _, hj, _, hev⟩
      · exact absurd h1 (htr i t)
      · injection hev with hij _
        omega
    · rw [writeLoop_outcome text 81 0 fields tr (by omega)]
      simp
    · intro j hj
      rw [writeLoop_getElem?]
      have : ¬ (0 ≤ j ∧ j < 0 + 81 ∧ j < fields.length) := by omega
      rw [if_neg this]
  constructor
  · unfold solveClick
    simp only []
    split
    · simp
    · split
      · simp
      · split
        · simp
        · exact key _ _ (by simp)
  · exact key _ _ (by simp)

/-- Witness of C10: a document of 82 fields. -/
theorem loops_in_bounds_witness :
    (solveClick (constModule (List.replicate 81 5)) (List.replicate 82 "x")).fields[81]? =
      (List.replicate 82 "x")[81]? :=
  (loops_in_bounds (constModule (List.replicate 81 5)) (List.replicate 82 "x")
    (by simp)).1.2.2 81 (le_refl 81)

/-- C2, as stated, fails on the board of 81 blank fields: the sequence handed to
the constructor is not made of integers in 0..9 with 0 at the blank positions,
because `Number.parseInt("")` is `NaN`. -/
theorem blank_board_not_zero :
    ¬ ((sudokuInput (List.replicate 81 "")).length = 81 ∧
        (∀ x ∈ sudokuInput (List.replicate 81 ""),
          ∃ n : Int, x = JSNum.int n ∧ 0 ≤ n ∧ n ≤ 9) ∧
        ∀ i : Nat, i < 81 → ((sudokuInput (List.replicate 81 ""))[i]? = some (JSNum.int 0) ↔
          (List.replicate 81 "")[i]? = some "")) := by
  intro h
  have h0 := (h.2.2 0 (by decide)).mpr (by decide)
  revert h0
  decide

/-- C2, amended: on a board of 81 fields each blank or a single digit 1..9, the
sequence the solve handler hands to the constructor has 81 elements, each `NaN`
or an integer in 1..9, with `NaN` at exactly the blank positions and the digit's
value at every other position. -/
theorem solveClick_input_blanks {G : Type} (M : SudokuModule G) (fields : List String)
    (hlen : fields.length = 81)
    (hboard : ∀ s ∈ fields, s = "" ∨ ∃ d, 1 ≤ d ∧ d ≤ 9 ∧ s = digitText d) :
    (solveClick M fields).trace.head? = some (Event.construct (sudokuInput fields)) ∧
      (sudokuInput fields).length = 81 ∧
      (∀ x ∈ sudokuInput fields,
        x = JSNum.nan ∨ ∃ d : Nat, 1 ≤ d ∧ d ≤ 9 ∧ x = JSNum.int d) ∧
      (∀ i : Nat, i < 81 →
        ((sudokuInput fields)[i]? = some JSNum.nan ↔ fields[i]? = some "")) ∧
      ∀ (i d : Nat), 1 ≤ d → d ≤ 9 → fields[i]? = some (digitText d) →
        (sudokuInput fields)[i]? = some (JSNum.int d) := by
  refine ⟨solveClick_trace_head M fields, by simp [sudokuInput, hlen], ?_, ?_, ?_⟩
  · intro x hx
    obtain ⟨s, hs, rfl⟩ := List.mem_map.mp hx
    rcases hboard s hs with he | ⟨d, h1, h9, hd⟩
    · left; rw [he]; exact parseInt_empty
    · right; exact ⟨d, h1, h9, by rw [hd]; exact parseInt_digitText d h1 h9⟩
  · intro i hi
    have hfi : i < fields.length := by omega
    have hget : fields[i]? = some fields[i] := List.getElem?_eq_getElem hfi
    rw [sudokuInput_getElem?, hget]
    simp only [Option.map_some', Option.some.injEq]
    rcases hboard fields[i] (List.getElem_mem hfi) with he | ⟨d, h1, h9, hd⟩
    · rw [he]; simp [parseInt_empty]
    · rw [hd, parseInt_digitText d h1 h9]
      constructor
      · intro hcon; cases hcon
      · intro hcon; exact absurd hcon (digitText_ne_empty d h1 h9)
  · intro i d h1 h9 hf
    rw [sudokuInput_getElem?, hf]
    simp [parseInt_digitText d h1 h9]

/-- Witness of the amended C2: the board with a 5 in the first of its 81 fields. -/
theorem solveClick_input_blanks_witness :
    (sudokuInput ("5" :: List.replicate 80 ""))[1]? = some JSNum.nan ↔
      ("5" :: List.replicate 80 "")[1]? = some "" :=
  (solveClick_input_blanks rejectModule ("5" :: List.replicate 80 "") (by simp)
    (by
      intro s hs
      rcases List.mem_cons.mp hs with h | h
      · exact Or.inr ⟨5, by decide, by decide, h⟩
      · exact Or.inl (List.eq_of_mem_replicate h))).2.2.2.1 1 (by decide)

/-! ## Lemmas on the engine -/

theorem isPeer_symm (c p : Nat) : isPeer c p = isPeer p c := by
  unfold isPeer
  rw [Bool.eq_iff_iff]
  simp only [Bool.and_eq_true, Bool.or_eq_true, bne_iff_ne, beq_iff_eq, ne_eq]
  constructor <;> rintro ⟨h1, h2⟩ <;> refine ⟨fun h => h1 h.symm, ?_⟩ <;>
    rcases h2 with (h | h) | h <;> simp [h]

theorem isPeer_ne (c p : Nat) (h : isPeer c p = true) : c ≠ p := by
  unfold isPeer at h
  simp only [Bool.and_eq_true, bne_iff_ne, ne_eq] at h
  exact h.1

theorem getD_map_range {α : Type} (f : Nat → α) (n p : Nat) (d : α) :
    ((List.range n).map f).getD p d = if p < n then f p else d := by
  rw [List.getD_eq_getElem?_getD]
  by_cases h : p < n
  · simp [h, List.getElem?_range]
  · rw [List.getElem?_eq_none (by simp only [List.length_map, List.length_range]; omega)]
    simp [h]

theorem Grid.val_assigned (g : Grid) (c v p : Nat) :
    (g.assigned c v).val p = if p = c ∧ c < g.vals.length then v else g.val p := by
  unfold Grid.assigned Grid.val
  simp only [List.getD_eq_getElem?_getD, List.getElem?_set]
  by_cases h : c = p
  · subst h
    by_cases h2 : c < g.vals.length
    · simp [h2]
    · simp [h2]
      rw [List.getElem?_eq_none (by omega)]
      rfl
  · have : ¬ (p = c ∧ c < g.vals.length) := fun hh => h hh.1.symm
    simp [h, this]

theorem Grid.cand_assigned (g : Grid) (c v p : Nat) :
    (g.assigned c v).cand p =
      if p < 81 then
        (if isPeer c p then (g.cand p).filter (fun w => w != v) else g.cand p)
      else [] := by
  unfold Grid.assigned Grid.cand
  simp only []
  rw [getD_map_range]

theorem Grid.Inv.assigned {g : Grid} (hI : g.Inv) (c v : Nat) (h0 : g.val c = 0)
    (hv : v ∈ g.cand c) : (g.assigned c v).Inv := by
  obtain ⟨hv1, hv9, hvp⟩ := hI.sound c v h0 hv
  refine ⟨?_, ?_, ?_, ?_⟩
  · simp [Grid.assigned, hI.len]
  · intro a
    rw [Grid.val_assigned]
    split
    · exact hv9
    · exact hI.range a
  · intro a b hab ha
    rw [Grid.val_assigned] at ha ⊢
    rw [Grid.val_assigned]
    by_cases hA : a = c ∧ c < g.vals.length
    · have hB : ¬ (b = c ∧ c < g.vals.length) := by
        intro hB
        exact isPeer_ne a b hab (hA.1.trans hB.1.symm)
      rw [if_neg hB, if_pos hA]
      apply hvp
      rw [← hA.1]
      exact hab
    · rw [if_neg hA] at ha ⊢
      by_cases hB : b = c ∧ c < g.vals.length
      · rw [if_pos hB]
        have hca : isPeer c a = true := by
          rw [isPeer_symm, ← hB.1]
          exact hab
        exact fun h => hvp a hca h.symm
      · rw [if_neg hB]
        exact hI.distinct a b hab ha
  · intro a w ha hw
    rw [Grid.val_assigned] at ha
    by_cases hA : a = c ∧ c < g.vals.length
    · rw [if_pos hA] at ha
      omega
    · rw [if_neg hA] at ha
      rw [Grid.cand_assigned] at hw
      have hw' : w ∈ g.cand a ∧ (isPeer c a = true → w ≠ v) := by
        split at hw
        · split at hw
          · rename_i hp
            rw [List.mem_filter] at hw
            refine ⟨hw.1, fun _ => ?_⟩
            simpa using hw.2
          · rename_i hp
            exact ⟨hw, fun h => absurd h hp⟩
        · simp at hw
      obtain ⟨hw1, hw9, hwp⟩ := hI.sound a w ha hw'.1
      refine ⟨hw1, hw9, ?_⟩
      intro p hap
      rw [Grid.val_assigned]
      split
      · rename_i hP
        have hca : isPeer c a = true := by
          rw [isPeer_symm, ← hP.1]
          exact hap
        exact fun h => hw'.2 hca h.symm
      · exact hwp p hap

theorem Grid.extends_refl (g : Grid) : g.Extends g := fun _ _ => rfl

theorem Grid.Extends.trans {g h k : Grid} (h1 : g.Extends h) (h2 : h.Extends k) :
    g.Extends k := by
  intro c hc
  have := h1 c hc
  rw [h2 c (by rw [this]; exact hc), this]

theorem Grid.extends_assigned (g : Grid) (c v : Nat) (h0 : g.val c = 0) :
    g.Extends (g.assigned c v) := by
  intro a ha
  rw [Grid.val_assigned]
  split
  · rename_i hA
    rw [hA.1] at ha
    exact absurd h0 ha
  · rfl

theorem Grid.assign_ok {g g1 : Grid} {c v : Nat} {l : List Nat} (hI : g.Inv)
    (h : g.assign c v = Except.ok (g1, l)) : g1.Inv ∧ g.Extends g1 := by
  unfold Grid.assign at h
  split at h
  · split at h
    · injection h with h
      injection h with h _
      subst h
      exact ⟨hI, Grid.extends_refl g⟩
    · cases h
  · rename_i h0
    have h0' : g.val c = 0 := by omega
    split at h
    · rename_i hv
      injection h with h
      injection h with h _
      subst h
      exact ⟨hI.assigned c v h0' hv, Grid.extends_assigned g c v h0'⟩
    · cases h

theorem scanCells_ok (cs : List Nat) (g g1 : Grid) (b b1 : Bool) (hI : g.Inv)
    (h : scanCells cs g b = Except.ok (g1, b1)) : g1.Inv ∧ g.Extends g1 := by
  induction cs generalizing g b with
  | nil =>
    unfold scanCells at h
    injection h with h
    injection h with h _
    subst h
    exact ⟨hI, Grid.extends_refl g⟩
  | cons c cs ih =>
    unfold scanCells at h
    split at h
    · exact ih g b hI h
    · split at h
      · cases h
      · split at h
        · cases h
        · rename_i g2 l hass
          obtain ⟨hI2, he2⟩ := Grid.assign_ok hI hass
          obtain ⟨hI1, he1⟩ := ih g2 true hI2 h
          exact ⟨hI1, he2.trans he1⟩
      · exact ih g b hI h

theorem propagate_ok (n : Nat) (g g1 : Grid) (hI : g.Inv)
    (h : propagate n g = Except.ok g1) : g1.Inv ∧ g.Extends g1 := by
  induction n generalizing g with
  | zero =>
    unfold propagate at h
    injection h with h
    subst h
    exact ⟨hI, Grid.extends_refl g⟩
  | succ n ih =>
    unfold propagate at h
    split at h
    · cases h
    · rename_i g2 changed hscan
      obtain ⟨hI2, he2⟩ := scanCells_ok _ _ _ _ _ hI hscan
      split at h
      · obtain ⟨hI1, he1⟩ := ih g2 hI2 h
        exact ⟨hI1, he2.trans he1⟩
      · injection h with h
        subst h
        exact ⟨hI2, he2⟩

theorem search_ok (n : Nat) (g g1 : Grid) (hI : g.Inv) (h : search n g = some g1) :
    g1.Inv ∧ g.Extends g1 ∧ g1.is_complete = true := by
  induction n generalizing g with
  | zero =>
    unfold search at h
    cases h
  | succ n ih =>
    unfold search at h
    split at h
    · cases h
    · rename_i g2 hprop
      obtain ⟨hI2, he2⟩ := propagate_ok _ _ _ hI hprop
      split at h
      · rename_i hcomp
        injection h with h
        subst h
        exact ⟨hI2, he2, hcomp⟩
      · split at h
        · cases h
        · rename_i c hpick
          obtain ⟨v, _, hv⟩ := List.exists_of_findSome?_eq_some h
          split at hv
          · cases hv
          · rename_i g3 l hass
            obtain ⟨hI3, he3⟩ := Grid.assign_ok hI2 hass
            obtain ⟨hI1, he1, hc1⟩ := ih g3 hI3 hv
            exact ⟨hI1, (he2.trans he3).trans he1, hc1⟩

theorem cellOfInput_getD_le (x : JSNum) : (cellOfInput x).getD 0 ≤ 9 := by
  cases x with
  | nan => simp [cellOfInput]
  | int n =>
    by_cases h : 0 ≤ n ∧ n ≤ 9
    · simp only [cellOfInput, h, and_self, if_true, Option.getD_some]
      omega
    · simp [cellOfInput, h]

theorem getD_zero_of_length_le (vs : List Nat) (p : Nat) (h : vs.length ≤ p) :
    vs.getD p 0 = 0 := by
  rw [List.getD_eq_getElem?_getD, List.getElem?_eq_none h]
  rfl

theorem mem_peers (c p : Nat) : p ∈ peers c ↔ p < 81 ∧ isPeer c p = true := by
  simp [peers, List.mem_filter]

theorem Grid.construct_ok {values : List JSNum} {g : Grid}
    (h : Grid.construct values = Except.ok g) :
    g.Inv ∧ values.length = 81 ∧
      g.vals = values.map (fun x => (cellOfInput x).getD 0) ∧
      ∀ x ∈ values, (cellOfInput x).isSome = true := by
  unfold Grid.construct at h
  split at h
  · cases h
  rename_i hlen
  have hlen : values.length = 81 := by omega
  split at h
  · cases h
  rename_i hall
  simp only [] at h
  split at h
  · cases h
  rename_i hconf
  injection h with h
  subst h
  have hvl : (values.map fun x => (cellOfInput x).getD 0).length = 81 := by
    simp [hlen]
  refine ⟨⟨hvl, ?_, ?_, ?_⟩, hlen, rfl, ?_⟩
  · intro c
    show (values.map fun x => (cellOfInput x).getD 0).getD c 0 ≤ 9
    rw [List.getD_eq_getElem?_getD, List.getElem?_map]
    cases values[c]? with
    | none => exact Nat.zero_le 9
    | some x => exact cellOfInput_getD_le x
  · intro c p hcp hc
    show (values.map fun x => (cellOfInput x).getD 0).getD p 0 ≠
      (values.map fun x => (cellOfInput x).getD 0).getD c 0
    have hc' : (values.map fun x => (cellOfInput x).getD 0).getD c 0 ≠ 0 := hc
    by_cases hc81 : c < 81
    · by_cases hp81 : p < 81
      · simp only [hasConflict, List.any_eq_true, not_exists, not_and, Bool.and_eq_true,
          bne_iff_ne, ne_eq, beq_iff_eq, List.mem_range] at hconf
        exact hconf c hc81 hc' p ((mem_peers c p).mpr ⟨hp81, hcp⟩)
      · rw [getD_zero_of_length_le _ p (by omega)]
        exact fun h => hc' h.symm
    · exact absurd (getD_zero_of_length_le _ c (by omega)) hc'
  · intro c v hc hv
    have hv' : v ∈ ((List.range 81).map
        (initialCand (values.map fun x => (cellOfInput x).getD 0))).getD c [] := hv
    have hc' : (values.map fun x => (cellOfInput x).getD 0).getD c 0 = 0 := hc
    rw [getD_map_range] at hv'
    split at hv'
    · unfold initialCand at hv'
      simp only [hc', bne_self_eq_false, Bool.false_eq_true, ↓reduceIte, List.mem_filter,
        List.mem_range'_1, List.all_eq_true, bne_iff_ne, ne_eq] at hv'
      refine ⟨hv'.1.1, by omega, ?_⟩
      intro p hcp
      show (values.map fun x => (cellOfInput x).getD 0).getD p 0 ≠ v
      by_cases hp81 : p < 81
      · exact hv'.2 p ((mem_peers c p).mpr ⟨hp81, hcp⟩)
      · rw [getD_zero_of_length_le _ p (by omega)]
        omega
    · simp at hv'
  · intro x hx
    simp only [List.any_eq_true, not_exists, not_and, Bool.not_eq_true] at hall
    have := hall x hx
    cases hcx : cellOfInput x with
    | none => simp [hcx] at this
    | some n => rfl

theorem count_eq_one_of_nodup (L : List Int) (hlen : L.length = 9) (hnd : L.Nodup)
    (hr : ∀ x ∈ L, 1 ≤ x ∧ x ≤ 9) (d : Int) (h1 : 1 ≤ d) (h9 : d ≤ 9) :
    L.count d = 1 := by
  have hsub : L.toFinset ⊆ Finset.Icc (1 : Int) 9 := by
    intro x hx
    rw [List.mem_toFinset] at hx
    rw [Finset.mem_Icc]
    exact hr x hx
  have hcard : (Finset.Icc (1 : Int) 9).card ≤ L.toFinset.card := by
    rw [List.toFinset_card_of_nodup hnd, hlen]
    simp
  have heq := Finset.eq_of_subset_of_card_le hsub hcard
  have hmem : d ∈ L := by
    rw [← List.mem_toFinset, heq, Finset.mem_Icc]
    exact ⟨h1, h9⟩
  exact List.count_eq_one_of_mem hnd hmem

theorem Sudoku.getD_get_fields (s : Sudoku) (c : Nat) :
    s.get_fields.getD c 0 = (s.grid.val c : Int) := by
  unfold Sudoku.get_fields Grid.val
  rw [List.getD_eq_getElem?_getD, List.getD_eq_getElem?_getD, List.getElem?_map]
  cases s.grid.vals[c]? <;> rfl

theorem Grid.val_ne_zero_of_complete (g : Grid) (h : g.is_complete = true) (c : Nat)
    (hc : c < 81) : g.val c ≠ 0 := by
  simp only [Grid.is_complete, List.all_eq_true, List.mem_range, bne_iff_ne, ne_eq] at h
  exact h c hc

theorem unit_valid (s : Sudoku) (hI : s.grid.Inv) (hc : s.grid.is_complete = true)
    (cell : Nat → Nat) (hlt : ∀ k, k < 9 → cell k < 81)
    (hpeer : ∀ i j, i < 9 → j < 9 → i ≠ j → isPeer (cell i) (cell j) = true) :
    unitOk s.get_fields ((List.range 9).map cell) := by
  intro d h1 h9
  have hL : ((List.range 9).map cell).map (fun c => s.get_fields.getD c 0) =
      (List.range 9).map (fun k => (s.grid.val (cell k) : Int)) := by
    rw [List.map_map]
    apply List.map_congr_left
    intro k _
    exact Sudoku.getD_get_fields s (cell k)
  rw [hL]
  apply count_eq_one_of_nodup _ (by simp) _ _ d h1 h9
  · apply List.Nodup.map_on _ (List.nodup_range 9)
    intro i hi j hj hij
    by_contra hne
    rw [List.mem_range] at hi hj
    have hp := hpeer i j hi hj hne
    have hnz := Grid.val_ne_zero_of_complete s.grid hc (cell i) (hlt i hi)
    have := hI.distinct (cell i) (cell j) hp hnz
    apply this
    exact_mod_cast hij.symm
  · intro x hx
    obtain ⟨k, hk, rfl⟩ := List.mem_map.mp hx
    rw [List.mem_range] at hk
    have hnz := Grid.val_ne_zero_of_complete s.grid hc (cell k) (hlt k hk)
    have hle := hI.range (cell k)
    omega

theorem row_peers (u i j : Nat) (hi : i < 9) (hj : j < 9) (hne : i ≠ j) :
    isPeer (u * 9 + i) (u * 9 + j) = true := by
  simp only [isPeer, rowOf, colOf, boxOf, Bool.and_eq_true, Bool.or_eq_true, bne_iff_ne,
    beq_iff_eq, ne_eq]
  refine ⟨by omega, Or.inl (Or.inl ?_)⟩
  omega

theorem col_peers (u i j : Nat) (hne : i ≠ j) :
    isPeer (i * 9 + u) (j * 9 + u) = true := by
  simp only [isPeer, rowOf, colOf, boxOf, Bool.and_eq_true, Bool.or_eq_true, bne_iff_ne,
    beq_iff_eq, ne_eq]
  refine ⟨by omega, Or.inl (Or.inr ?_)⟩
  omega

theorem box_peers (u i j : Nat) (hi : i < 9) (hj : j < 9) (hne : i ≠ j) :
    isPeer (((u / 3) * 3 + i / 3) * 9 + ((u % 3) * 3 + i % 3))
      (((u / 3) * 3 + j / 3) * 9 + ((u % 3) * 3 + j % 3)) = true := by
  simp only [isPeer, rowOf, colOf, boxOf, Bool.and_eq_true, Bool.or_eq_true, bne_iff_ne,
    beq_iff_eq, ne_eq]
  refine ⟨by omega, Or.inr ?_⟩
  omega

theorem complete_valid (s : Sudoku) (hI : s.grid.Inv) (hc : s.grid.is_complete = true) :
    validSolution s.get_fields := by
  refine ⟨by simp [Sudoku.get_fields, hI.len], ?_⟩
  intro u hu
  refine ⟨?_, ?_, ?_⟩
  · exact unit_valid s hI hc (fun k => u * 9 + k) (fun k hk => by dsimp only; omega)
      (fun i j hi hj hne => row_peers u i j hi hj hne)
  · exact unit_valid s hI hc (fun k => k * 9 + u) (fun k hk => by dsimp only; omega)
      (fun i j _ _ hne => col_peers u i j hne)
  · exact unit_valid s hI hc
      (fun k => ((u / 3) * 3 + k / 3) * 9 + ((u % 3) * 3 + k % 3)) (fun k hk => by dsimp only; omega)
      (fun i j hi hj hne => box_peers u i j hi hj hne)

theorem solve_solved (s : Sudoku) (h : s.solve.status = Status.solved) :
    search 82 s.grid = some s.solve.grid := by
  unfold Sudoku.solve at h ⊢
  split
  · rename_i g hs
    exact hs
  · rename_i hnone
    rw [hnone] at h
    simp at h

theorem solve_extends (s : Sudoku) (hI : s.grid.Inv) :
    s.solve.grid.Inv ∧ s.grid.Extends s.solve.grid := by
  unfold Sudoku.solve
  split
  · rename_i g hs
    obtain ⟨h1, h2, _⟩ := search_ok 82 s.grid g hI hs
    exact ⟨h1, h2⟩
  · exact ⟨hI, Grid.extends_refl _⟩

theorem specSudoku_construct_ok {input : List JSNum} {s : Sudoku}
    (h : specSudoku.construct input = Except.ok s) :
    Grid.construct input = Except.ok s.grid := by
  simp only [specSudoku] at h
  split at h
  · rename_i g hg
    injection h with h
    subst h
    exact hg
  · cases h

theorem solveClick_spec_ok {fields : List String} {s : Sudoku}
    (h : specSudoku.construct (sudokuInput fields) = Except.ok s) :
    solveClick specSudoku fields =
      writeLoop (writeBackText s.solve.get_fields) 81 0 fields
        [Event.construct (sudokuInput fields), Event.solve, Event.getFields] := by
  unfold solveClick
  simp only [h]
  rfl

theorem solveClick_spec_error {fields : List String} {e : String}
    (h : specSudoku.construct (sudokuInput fields) = Except.error e) :
    (solveClick specSudoku fields).fields = fields := by
  unfold solveClick
  simp only [h]

theorem Sudoku.get_fields_getElem? (s : Sudoku) (hlen : s.grid.vals.length = 81) (i : Nat)
    (hi : i < 81) : s.get_fields[i]? = some (s.grid.val i : Int) := by
  have h1 : i < s.grid.vals.length := by omega
  unfold Sudoku.get_fields Grid.val
  rw [List.getElem?_map, List.getD_eq_getElem?_getD, List.getElem?_eq_getElem h1]
  rfl

/-- C6: for every input on which construction succeeds and which `solve()`
classifies as `Solved`, the 81 values of `get_fields()` have every row, column
and 3×3 box containing each of 1..9 exactly once, and the solve handler writes
these values (as decimal text) to the 81 fields of the board. -/
theorem solved_output_valid (input : List JSNum) (s : Sudoku)
    (hc : specSudoku.construct input = Except.ok s)
    (hst : s.solve.status = Status.solved) :
    validSolution s.solve.get_fields ∧
      ∀ fields : List String, sudokuInput fields = input → ∀ i : Nat, i < 81 →
        (solveClick specSudoku fields).fields[i]? =
          some (numberToString (s.solve.get_fields.getD i 0)) := by
  have hgc := specSudoku_construct_ok hc
  obtain ⟨hI, hlen, _, _⟩ := Grid.construct_ok hgc
  obtain ⟨hI1, _, hcomp⟩ := search_ok 82 s.grid s.solve.grid hI (solve_solved s hst)
  refine ⟨complete_valid s.solve hI1 hcomp, ?_⟩
  intro fields hf i hi
  subst hf
  have hfl : fields.length = 81 := by simpa [sudokuInput] using hlen
  rw [solveClick_spec_ok hc, writeLoop_getElem?]
  have hcond : 0 ≤ i ∧ i < 0 + 81 ∧ i < fields.length := by omega
  rw [if_pos hcond]
  have hnz := Grid.val_ne_zero_of_complete s.solve.grid hcomp i hi
  have hne : (s.solve.grid.val i : Int) ≠ 0 := by exact_mod_cast hnz
  simp [writeBackText, Sudoku.get_fields_getElem? s.solve hI1.len i hi,
    Sudoku.getD_get_fields, hne]

set_option maxRecDepth 100000 in
/-- Witness of C6: the example grid with one blank cell is constructed and solved. -/
theorem solved_output_valid_witness :
    validSolution (Sudoku.solve ⟨oneBlankGrid, Status.ready⟩).get_fields :=
  (solved_output_valid oneBlank ⟨oneBlankGrid, Status.ready⟩ (by rfl) (by decide)).1

/-- C7: for every input on which construction succeeds and every index whose input
value is non-zero, `get_fields()` after `solve()` holds the input value at that
index; and for every document, a field that holds a single digit 1..9 holds the
same text after the solve handler. -/
theorem givens_preserved (input : List JSNum) (s : Sudoku)
    (hc : specSudoku.construct input = Except.ok s) (i : Nat) (n : Int)
    (hi : input[i]? = some (JSNum.int n)) (hn : n ≠ 0) :
    s.solve.get_fields[i]? = some n ∧
      ∀ (fields : List String) (d : Nat), sudokuInput fields = input → 1 ≤ d → d ≤ 9 →
        fields[i]? = some (digitText d) →
        (solveClick specSudoku fields).fields[i]? = some (digitText d) := by
  have hgc := specSudoku_construct_ok hc
  obtain ⟨hI, hlen, hvals, hsome⟩ := Grid.construct_ok hgc
  obtain ⟨hI1, hext⟩ := solve_extends s hI
  have hi81 : i < 81 := by
    by_contra hcon
    rw [List.getElem?_eq_none (by omega)] at hi
    cases hi
  have hmem : JSNum.int n ∈ input := List.mem_iff_getElem?.mpr ⟨i, hi⟩
  have hrange : 0 ≤ n ∧ n ≤ 9 := by
    have := hsome _ hmem
    by_contra hcon
    simp [cellOfInput, hcon] at this
  have hval : s.grid.val i = n.toNat := by
    unfold Grid.val
    rw [hvals, List.getD_eq_getElem?_getD, List.getElem?_map, hi]
    simp [cellOfInput, hrange]
  have hnz : s.grid.val i ≠ 0 := by omega
  have hout : s.solve.get_fields[i]? = some n := by
    rw [Sudoku.get_fields_getElem? s.solve hI1.len i hi81, hext i hnz, hval]
    congr 1
    omega
  refine ⟨hout, ?_⟩
  intro fields d hf h1 h9 hfd
  subst hf
  have hfl : fields.length = 81 := by simpa [sudokuInput] using hlen
  have hnd : n = (d : Int) := by
    rw [sudokuInput_getElem?, hfd] at hi
    simp only [Option.map_some', parseInt_digitText d h1 h9, Option.some.injEq,
      JSNum.int.injEq] at hi
    exact hi.symm
  rw [solveClick_spec_ok hc, writeLoop_getElem?]
  have hcond : 0 ≤ i ∧ i < 0 + 81 ∧ i < fields.length := by omega
  rw [if_pos hcond]
  have hd0 : (d : Int) ≠ 0 := by omega
  rw [hnd] at hout
  simp only [writeBackText, hout, ne_eq, hd0, not_false_eq_true, if_true,
    numberToString_digit d h1 h9]

set_option maxRecDepth 100000 in
/-- Witness of C7: the second cell of the example grid is the given 3. -/
theorem givens_preserved_witness :
    (Sudoku.solve ⟨oneBlankGrid, Status.ready⟩).get_fields[1]? = some 3 :=
  (givens_preserved oneBlank ⟨oneBlankGrid, Status.ready⟩ (by rfl) 1 3 (by rfl)
    (by decide)).1

/-! ## The bounds on scans and recursion depth are never reached -/

theorem countP_lt_of_imp (l : List Nat) (p q : Nat → Bool)
    (himp : ∀ x ∈ l, q x = true → p x = true) (c : Nat) (hc : c ∈ l)
    (hpc : p c = true) (hqc : q c = false) : l.countP q < l.countP p := by
  induction l with
  | nil => simp at hc
  | cons a t ih =>
    have hmono : t.countP q ≤ t.countP p :=
      List.countP_mono_left fun x hx hq => himp x (List.mem_cons_of_mem a hx) hq
    rw [List.countP_cons, List.countP_cons]
    rcases List.mem_cons.mp hc with h | h
    · subst h
      simp only [hqc, hpc, Bool.false_eq_true, if_false, if_true]
      omega
    · have := ih (fun x hx => himp x (List.mem_cons_of_mem a hx)) h
      by_cases hqa : q a = true
      · have hpa := himp a (List.mem_cons_self a t) hqa
        simp only [hqa, hpa, if_true]
        omega
      · have hqa1 : q a = false := by simpa using hqa
        rw [hqa1]
        simp only [Bool.false_eq_true, if_false]
        split <;> omega

theorem Grid.emptyCount_le (g : Grid) : g.emptyCount ≤ 81 := by
  unfold Grid.emptyCount
  have := List.countP_le_length (fun c => g.val c == 0) (l := List.range 81)
  simpa using this

theorem Grid.emptyCount_assigned (g : Grid) (hI : g.Inv) (c v : Nat) (h0 : g.val c = 0)
    (hc : c < 81) (hv : v ≠ 0) : (g.assigned c v).emptyCount < g.emptyCount := by
  unfold Grid.emptyCount
  apply countP_lt_of_imp _ _ _ _ c (List.mem_range.mpr hc)
  · simp [h0]
  · rw [Grid.val_assigned, if_pos ⟨rfl, by rw [hI.len]; exact hc⟩]
    simpa using hv
  · intro x _ hq
    rw [Grid.val_assigned] at hq
    split at hq
    · simp only [beq_iff_eq] at hq
      exact absurd hq hv
    · exact hq

theorem Grid.assign_count {g g1 : Grid} {c v : Nat} {l : List Nat} (hI : g.Inv)
    (h0 : g.val c = 0) (hc : c < 81) (h : g.assign c v = Except.ok (g1, l)) :
    g1.emptyCount < g.emptyCount := by
  unfold Grid.assign at h
  rw [if_neg (by omega)] at h
  split at h
  · rename_i hv
    injection h with h
    injection h with h _
    subst h
    have := (hI.sound c v h0 hv).1
    exact Grid.emptyCount_assigned g hI c v h0 hc (by omega)
  · cases h

theorem scanCells_count (cs : List Nat) (g g1 : Grid) (b b1 : Bool) (hI : g.Inv)
    (hcs : ∀ c ∈ cs, c < 81) (h : scanCells cs g b = Except.ok (g1, b1)) :
    g1.emptyCount ≤ g.emptyCount ∧
      (b1 = true → b = true ∨ g1.emptyCount < g.emptyCount) := by
  induction cs generalizing g b with
  | nil =>
    unfold scanCells at h
    injection h with h
    injection h with h hb
    subst h
    subst hb
    exact ⟨le_refl _, fun hb => Or.inl hb⟩
  | cons c cs ih =>
    have hcs' : ∀ x ∈ cs, x < 81 := fun x hx => hcs x (List.mem_cons_of_mem c hx)
    unfold scanCells at h
    split at h
    · exact ih g b hI hcs' h
    · rename_i h0
      have h0' : g.val c = 0 := by omega
      split at h
      · cases h
      · split at h
        · cases h
        · rename_i g2 l hass
          have hlt := Grid.assign_count hI h0' (hcs c (List.mem_cons_self c cs)) hass
          obtain ⟨hI2, _⟩ := Grid.assign_ok hI hass
          obtain ⟨hle, _⟩ := ih g2 true hI2 hcs' h
          exact ⟨by omega, fun _ => Or.inr (by omega)⟩
      · exact ih g b hI hcs' h

theorem propagate_count (n : Nat) (g g1 : Grid) (hI : g.Inv)
    (h : propagate n g = Except.ok g1) : g1.emptyCount ≤ g.emptyCount := by
  induction n generalizing g with
  | zero =>
    unfold propagate at h
    injection h with h
    subst h
    exact le_refl _
  | succ n ih =>
    unfold propagate at h
    split at h
    · cases h
    · rename_i g2 changed hscan
      obtain ⟨hI2, _⟩ := scanCells_ok _ _ _ _ _ hI hscan
      obtain ⟨hle, _⟩ := scanCells_count _ _ _ _ _ hI (fun c hc => List.mem_range.mp hc) hscan
      split at h
      · have := ih g2 hI2 h
        omega
      · injection h with h
        subst h
        exact hle

/-- Any bound above the number of empty cells gives the same propagation result:
the bound on the number of scans is never what ends propagation. -/
theorem propagate_fuel (n m : Nat) (g : Grid) (hI : g.Inv) (hn : g.emptyCount < n)
    (hm : g.emptyCount < m) : propagate n g = propagate m g := by
  induction n generalizing m g with
  | zero => omega
  | succ n ih =>
    cases m with
    | zero => omega
    | succ m =>
      unfold propagate
      cases hscan : scanCells (List.range 81) g false with
      | error e => rfl
      | ok r =>
        obtain ⟨g1, changed⟩ := r
        simp only []
        cases changed with
        | false => rfl
        | true =>
          obtain ⟨hI1, _⟩ := scanCells_ok _ _ _ _ _ hI hscan
          obtain ⟨_, hlt⟩ := scanCells_count _ _ _ _ _ hI
            (fun c hc => List.mem_range.mp hc) hscan
          have hlt' : g1.emptyCount < g.emptyCount := by
            rcases hlt rfl with h | h
            · cases h
            · exact h
          simp only [if_true]
          exact ih m g1 hI1 (by omega) (by omega)

theorem pickCell_spec (g : Grid) (c : Nat) (h : pickCell g = some c) :
    c < 81 ∧ g.val c = 0 := by
  unfold pickCell at h
  have key : ∀ (l : List Nat) (init : Option Nat),
      (∀ b, init = some b → b < 81 ∧ g.val b = 0) → (∀ x ∈ l, x < 81) →
      ∀ r, l.foldl
        (fun best c =>
          if g.val c = 0 ∧ 1 < (g.cand c).length then
            match best with
            | none => some c
            | some b => if (g.cand c).length < (g.cand b).length then some c else some b
          else best)
        init = some r → r < 81 ∧ g.val r = 0 := by
    intro l
    induction l with
    | nil =>
      intro init hinit _ r hr
      exact hinit r hr
    | cons a t ih =>
      intro init hinit hl r hr
      rw [List.foldl_cons] at hr
      refine ih _ ?_ (fun x hx => hl x (List.mem_cons_of_mem a hx)) r hr
      intro b hb
      split at hb
      · rename_i hcond
        have ha : a < 81 ∧ g.val a = 0 := ⟨hl a (List.mem_cons_self a t), hcond.1⟩
        split at hb
        · injection hb with hb
          subst hb
          exact ha
        · rename_i b0
          split at hb
          · injection hb with hb
            subst hb
            exact ha
          · exact hinit b hb
      · exact hinit b hb
  exact key (List.range 81) none (fun b hb => by cases hb)
    (fun x hx => List.mem_range.mp hx) c h

theorem findSome?_congr_mem {α β : Type} (l : List α) (f f1 : α → Option β)
    (h : ∀ x ∈ l, f x = f1 x) : l.findSome? f = l.findSome? f1 := by
  induction l with
  | nil => rfl
  | cons a t ih =>
    rw [List.findSome?_cons, List.findSome?_cons, h a (List.mem_cons_self a t),
      ih fun x hx => h x (List.mem_cons_of_mem a hx)]

/-- Any bound above the number of empty cells gives the same search result: the
bound on the recursion depth is never what ends the search. -/
theorem search_fuel (n m : Nat) (g : Grid) (hI : g.Inv) (hn : g.emptyCount < n)
    (hm : g.emptyCount < m) : search n g = search m g := by
  induction n generalizing m g with
  | zero => omega
  | succ n ih =>
    cases m with
    | zero => omega
    | succ m =>
      unfold search
      cases hprop : propagate 82 g with
      | error e => rfl
      | ok g1 =>
        simp only []
        obtain ⟨hI1, _⟩ := propagate_ok _ _ _ hI hprop
        have hle := propagate_count _ _ _ hI hprop
        split
        · rfl
        · cases hpick : pickCell g1 with
          | none => rfl
          | some c =>
            simp only []
            obtain ⟨hc81, hc0⟩ := pickCell_spec g1 c hpick
            apply findSome?_congr_mem
            intro v _
            cases hass : g1.assign c v with
            | error e => rfl
            | ok r =>
              obtain ⟨g2, l⟩ := r
              simp only []
              obtain ⟨hI2, _⟩ := Grid.assign_ok hI1 hass
              have hlt := Grid.assign_count hI1 hc0 hc81 hass
              exact ih m g2 hI2 (by omega) (by omega)

/-- The bounds used by `Sudoku.solve` suffice for every constructed grid: larger
bounds give the same result. -/
theorem solve_bounds_suffice (g : Grid) (hI : g.Inv) (n : Nat) (hn : 82 ≤ n) :
    propagate n g = propagate 82 g ∧ search n g = search 82 g := by
  have := Grid.emptyCount_le g
  exact ⟨propagate_fuel n 82 g hI (by omega) (by omega),
    search_fuel n 82 g hI (by omega) (by omega)⟩

end AlSudoku
